import Mathlib

/-! The emscripten math shim header and the SDL audio test.

A shallow embedding of `system/include/emscripten/em_math.h` (the constants and
the table of declared functions) and of `tests/sdl_audio.c` (the test program
`main`, `play`, `play2`), with the properties of the specification stated and
proved over it.
-/

namespace EmMath

/-! ## The declaration surface of `em_math.h` (lines 52-78) -/

/-- The C types that occur in the declarations of `em_math.h`. -/
inductive CType where
  | double
  | int
  | void
  deriving DecidableEq, Repr

/-- One function declaration of the header: its name, its return type, the
types of its named parameters in order, whether the parameter list ends in
`...`, and whether it carries `__attribute__((const))`. A parameter list
written `(void)` is the empty list. -/
structure Decl where
  name : String
  ret : CType
  params : List CType
  variadic : Bool
  isConst : Bool
  deriving DecidableEq, Repr

/-- A declaration `double name(double x) __attribute__((const));`. -/
def unaryConst (name : String) : Decl :=
  { name := name, ret := CType.double, params := [CType.double], variadic := false,
    isConst := true }

/-- A declaration `double name(double a, double b) __attribute__((const));`. -/
def binaryConst (name : String) : Decl :=
  { name := name, ret := CType.double, params := [CType.double, CType.double],
    variadic := false, isConst := true }

/-- The declarations of `em_math.h`, lines 52 to 78, in source order. -/
def declarations : List Decl :=
  [ unaryConst "emscripten_math_acos",
    unaryConst "emscripten_math_acosh",
    unaryConst "emscripten_math_asin",
    unaryConst "emscripten_math_asinh",
    unaryConst "emscripten_math_atan",
    binaryConst "emscripten_math_atan2",
    unaryConst "emscripten_math_atanh",
    unaryConst "emscripten_math_cbrt",
    unaryConst "emscripten_math_cos",
    unaryConst "emscripten_math_cosh",
    unaryConst "emscripten_math_exp",
    unaryConst "emscripten_math_expm1",
    binaryConst "emscripten_math_fmod",
    { name := "emscripten_math_hypot", ret := CType.double, params := [CType.int],
      variadic := true, isConst := true },
    unaryConst "emscripten_math_log",
    unaryConst "emscripten_math_log1p",
    unaryConst "emscripten_math_log10",
    unaryConst "emscripten_math_log2",
    binaryConst "emscripten_math_pow",
    { name := "emscripten_math_random", ret := CType.double, params := [],
      variadic := false, isConst := false },
    unaryConst "emscripten_math_round",
    unaryConst "emscripten_math_sign",
    unaryConst "emscripten_math_sin",
    unaryConst "emscripten_math_sinh",
    unaryConst "emscripten_math_sqrt",
    unaryConst "emscripten_math_tan",
    unaryConst "emscripten_math_tanh" ]

/-- The names of the declarations that satisfy a test, in source order. -/
def namesWhere (p : Decl → Bool) : List String :=
  (declarations.filter p).map Decl.name

/-! ## The constants of `em_math.h` (lines 40-47), as exact decimals -/

/-- `#define EM_MATH_E 2.718281828459045` -/
def EM_MATH_E : ℚ := 2718281828459045 / 10 ^ 15

/-- `#define EM_MATH_LN2 0.6931471805599453` -/
def EM_MATH_LN2 : ℚ := 6931471805599453 / 10 ^ 16

/-- `#define EM_MATH_LN10 2.302585092994046` -/
def EM_MATH_LN10 : ℚ := 2302585092994046 / 10 ^ 15

/-- `#define EM_MATH_LOG2E 1.4426950408889634` -/
def EM_MATH_LOG2E : ℚ := 14426950408889634 / 10 ^ 16

/-- `#define EM_MATH_LOG10E 0.4342944819032518` -/
def EM_MATH_LOG10E : ℚ := 4342944819032518 / 10 ^ 16

/-- `#define EM_MATH_PI 3.141592653589793` -/
def EM_MATH_PI : ℚ := 3141592653589793 / 10 ^ 15

/-- `#define EM_MATH_SQRT1_2 0.7071067811865476` -/
def EM_MATH_SQRT1_2 : ℚ := 7071067811865476 / 10 ^ 16

/-- `#define EM_MATH_SQRT2 1.4142135623730951` -/
def EM_MATH_SQRT2 : ℚ := 14142135623730951 / 10 ^ 16

/-- Modelled from the spec: a double-precision value crossing the boundary to
the host. A finite value is carried by the rational number it denotes exactly
(`num 0` is `+0`); the signed zero `-0`, the two infinities and the sentinel
not-a-number value are separate. Every finite double is such a rational; the
model does not restrict `num` to the rationals that are doubles. -/
inductive Double where
  | nan
  | posInf
  | negInf
  | negZero
  | num (q : ℚ)
  deriving DecidableEq, Repr

/-- The magnitude and exponent test for a rational to be a finite binary64
value: `q = m * 2^e` with `|m| < 2^53` and `-1074 ≤ e ≤ 971`. -/
def IsBinary64 (q : ℚ) : Prop :=
  ∃ m e : ℤ, |m| < 2 ^ 53 ∧ -1074 ≤ e ∧ e ≤ 971 ∧ q = m * (2 : ℚ) ^ e

/-- The integer part of a rational, rounding toward zero. -/
def truncate (q : ℚ) : ℤ :=
  if 0 ≤ q then ⌊q⌋ else ⌈q⌉

/-- Modelled from the spec: the host remainder operation `n % d` on doubles, which
`em_math.h` line 64 names but whose implementation is not in the header. The
result takes the sign of the dividend `n`: it is `n - d * q` for `q` the
quotient `n / d` rounded toward zero, and that value is exact. -/
def hostRemainder (n d : Double) : Double :=
  match n, d with
  | Double.nan, _ => Double.nan
  | _, Double.nan => Double.nan
  | Double.posInf, _ => Double.nan
  | Double.negInf, _ => Double.nan
  | n, Double.posInf => n
  | n, Double.negInf => n
  | _, Double.negZero => Double.nan
  | Double.negZero, Double.num b => if b = 0 then Double.nan else Double.negZero
  | Double.num a, Double.num b =>
    if b = 0 then Double.nan
    else if a = 0 then Double.num a
    else
      let r := a - b * truncate (a / b)
      if r = 0 ∧ a < 0 then Double.negZero else Double.num r

/-- Modelled from the spec: a remainder with the other sign handling, which takes
the sign of the divisor: `n - d * q` for `q` the quotient rounded down. Given on
finite nonzero operands only, where the two remainders can be compared. -/
def flooredRemainder (a b : ℚ) : ℚ :=
  a - b * ⌊a / b⌋

/-- Modelled from the spec: `emscripten_math_fmod` (declared at `em_math.h` line
64, implemented outside the header) forwards its two arguments to the host
remainder operator `x % y` and returns the result. -/
def emscripten_math_fmod (x y : Double) : Double :=
  hostRemainder x y

/-- Modelled from the spec: the host sign function, returning the sign of its
argument as a double: `-1` below zero, `1` above zero, and the argument itself
when it is a zero or not a number. -/
def hostSign (x : Double) : Double :=
  match x with
  | Double.nan => Double.nan
  | Double.posInf => Double.num 1
  | Double.negInf => Double.num (-1)
  | Double.negZero => Double.negZero
  | Double.num q => if q < 0 then Double.num (-1) else if 0 < q then Double.num 1 else Double.num q

/-- Modelled from the spec: `emscripten_math_sign` (declared at `em_math.h` line
73, implemented outside the header) forwards its argument to the host sign
function. -/
def emscripten_math_sign (x : Double) : Double :=
  hostSign x

/-- Modelled from the spec: the integer nearest to the square root of a
nonnegative rational `t`, a tie going to the even neighbour. `Nat.sqrt` of the
integer part of `t` is the integer part of the root; the comparison of `t` with
the square of the midpoint decides the direction. -/
def roundHalfEvenSqrt (t : ℚ) : ℕ :=
  let m := Nat.sqrt ⌊t⌋₊
  let mid : ℚ := ((m : ℚ) + 1 / 2) ^ 2
  if t < mid then m
  else if mid < t then m + 1
  else if m % 2 = 0 then m else m + 1

/-- Modelled from the spec: the double-precision result of a square root, the
binary64 value nearest to the square root of the nonnegative rational `s`
(round to nearest, ties to even). The exponent `e` of the last place is chosen
so that the root divided by `2^e` lies in `[2^52, 2^53)`, and is held at `-1074`
in the subnormal range; the significand is the root of `s / 4^e` rounded to an
integer; a result of `2^1024` or more is `+∞`. -/
def sqrtToDouble (s : ℚ) : Double :=
  if s ≤ 0 then Double.num 0
  else
    let e : ℤ := max (Int.log 2 s / 2 - 52) (-1074)
    let m := roundHalfEvenSqrt (s / (4 : ℚ) ^ e)
    if 971 < e ∨ (e = 971 ∧ m = 2 ^ 53) then Double.posInf
    else Double.num (m * (2 : ℚ) ^ e)

/-- The square of the mathematical value of a double that is not an infinity
or not-a-number. -/
def Double.square : Double → ℚ
  | Double.num q => q ^ 2
  | _ => 0

/-- Modelled from the spec: the host hypotenuse function on a list of doubles:
`+∞` when an argument is an infinity, else not-a-number when an argument is
not-a-number, else the double-precision square root of the sum of the squares
of the arguments (which is `+0` when every argument is a zero or there is
none). -/
def hostHypot (args : List Double) : Double :=
  if args.any (fun x => decide (x = Double.posInf ∨ x = Double.negInf)) then Double.posInf
  else if args.any (fun x => decide (x = Double.nan)) then Double.nan
  else sqrtToDouble ((args.map Double.square).sum)

/-- Modelled from the spec: `emscripten_math_hypot` (declared at `em_math.h` line
65, implemented outside the header) takes an explicit count followed by the
variadic double arguments, and forwards the first `count` of them to the host
hypotenuse function. -/
def emscripten_math_hypot (count : ℕ) (varargs : List Double) : Double :=
  hostHypot (varargs.take count)


/-- The double nearest to the decimal `5.3`. -/
def double_5_3 : ℚ := 5967269506265907 / 2 ^ 50

/-- The double nearest to the decimal `1.3`. -/
def double_1_3 : ℚ := 5854679515581645 / 2 ^ 52



end EmMath

namespace SdlAudio

/-- A `Mix_Chunk *`: an address, `0` being `NULL`. -/
abbrev ChunkPtr := Nat

/-- The functions the test program defines. -/
inductive Fn where
  | play
  | play2
  | main
  deriving DecidableEq, Repr

/-- A call of a library function made by the test program, with its arguments.
`SDL_Init` is only ever called with `SDL_INIT_AUDIO`, and `REPORT_RESULT()`
reports the local variable `result`. -/
inductive Call where
  | SDL_Init_AUDIO
  | Mix_OpenAudio (frequency format channels chunksize : Int)
  | Mix_LoadWAV (file : String)
  | Mix_PlayChannel (channel : Int) (chunk : ChunkPtr) (loops : Int)
  | emscripten_run_script (script : String)
  | printf (text : String)
  | REPORT_RESULT (result : Int)
  deriving DecidableEq, Repr

/-- What the library returns at each call site that uses the returned value:
`Mix_OpenAudio` (line 26), `Mix_LoadWAV("sound.ogg")` (line 29),
`Mix_LoadWAV("sound2.wav")` (line 31), `Mix_PlayChannel` in `play` (line 12) and
`Mix_PlayChannel` in `play2` (line 19). -/
structure LibResults where
  openAudio : Int
  loadSound : ChunkPtr
  loadSound2 : ChunkPtr
  playChannel : Int
  play2Channel : Int
  deriving DecidableEq, Repr

/-- The state of a run: the globals `sound` and `sound2` (line 7), the library
calls made so far, oldest first, and the functions of the program entered so
far, oldest first. -/
structure State where
  sound : ChunkPtr
  sound2 : ChunkPtr
  calls : List Call
  entered : List Fn
  deriving DecidableEq, Repr

/-- The state at program start: globals are zero-initialised. -/
def State.init : State :=
  { sound := 0, sound2 := 0, calls := [], entered := [] }

/-- Record a library call. -/
def State.call (s : State) (c : Call) : State :=
  { s with calls := s.calls ++ [c] }

/-- Record that a function of the program is entered. -/
def State.enter (s : State) (f : Fn) : State :=
  { s with entered := s.entered ++ [f] }

/-- `assert(cond)`: continue when the condition holds, abort the run otherwise.
A run is `Except.ok` when it continues and `Except.error` when an assertion
failed, in both cases with the state reached. -/
def assert (cond : Bool) (s : State) : Except State State :=
  if cond then Except.ok s else Except.error s

/-- `void play()` (lines 11-16). -/
def play (lib : LibResults) (s : State) : Except State State := do
  let s := s.enter Fn.play
  let channel := lib.playChannel
  let s := s.call (Call.Mix_PlayChannel (-1) s.sound 1)
  let s ← assert (decide (channel ≥ 0)) s
  pure (s.call (Call.emscripten_run_script "setTimeout(Module['_play2'], 500)"))

/-- `void play2()` (lines 18-21). -/
def play2 (lib : LibResults) (s : State) : Except State State := do
  let s := s.enter Fn.play2
  let channel2 := lib.play2Channel
  let s := s.call (Call.Mix_PlayChannel (-1) s.sound2 1)
  assert (decide (channel2 ≥ 0)) s

/-- The script of lines 37-41, the adjacent string literals concatenated. -/
def replayButtonScript : String :=
  "element = document.createElement('input');" ++
  "element.setAttribute('type', 'button');" ++
  "element.setAttribute('value', 'replay!');" ++
  "element.setAttribute('onclick', 'Module[\"_play\"]()');" ++
  "document.body.appendChild(element);"

/-- The part of `main` before the call of `play` (lines 24-32). -/
def mainUntilPlay (lib : LibResults) (s : State) : Except State State := do
  let s := s.enter Fn.main
  let s := s.call Call.SDL_Init_AUDIO
  let ret := lib.openAudio
  let s := s.call (Call.Mix_OpenAudio 0 0 0 0)
  let s ← assert (ret == 0) s
  let s := { s.call (Call.Mix_LoadWAV "sound.ogg") with sound := lib.loadSound }
  let s ← assert (s.sound != 0) s
  let s := { s.call (Call.Mix_LoadWAV "sound2.wav") with sound2 := lib.loadSound2 }
  let s ← assert (s.sound != 0) s
  pure s

/-- The part of `main` from the call of `play` on (lines 34-48); the value is
what `main` returns. -/
def mainFromPlay (lib : LibResults) (argc : Int) (s : State) : Except State (Int × State) := do
  let s ← play lib s
  let s ← if argc = 12121 then play2 lib s else pure s
  let s := s.call (Call.emscripten_run_script replayButtonScript)
  let s := s.call (Call.printf "you should hear two sounds. press the button to replay!\n")
  let result : Int := 1
  let s := s.call (Call.REPORT_RESULT result)
  pure (0, s)

/-- `int main(int argc, char **argv)` (lines 23-49). -/
def main (lib : LibResults) (argc : Int) (_argv : List String) : Except State (Int × State) :=
  mainUntilPlay lib State.init >>= mainFromPlay lib argc

/-- The library calls of a run, whether it ended in `return` or in a failed assertion. -/
def callsOf : Except State (Int × State) → List Call
  | Except.ok (_, s) => s.calls
  | Except.error s => s.calls

/-- The functions of the program entered in a run. -/
def enteredOf : Except State (Int × State) → List Fn
  | Except.ok (_, s) => s.entered
  | Except.error s => s.entered


/-- Library results with every call succeeding and two distinct chunks. -/
def allSucceed : LibResults :=
  { openAudio := 0, loadSound := 1, loadSound2 := 2, playChannel := 0, play2Channel := 1 }

/-- Library results where only `Mix_LoadWAV("sound2.wav")` fails, returning `NULL`. -/
def sound2Missing : LibResults :=
  { openAudio := 0, loadSound := 1, loadSound2 := 0, playChannel := 0, play2Channel := -1 }

/-- The library calls of a run of `main` in which no assertion fails and `play2`
is not called by `main`. -/
def linearCalls (lib : LibResults) : List Call :=
  [ Call.SDL_Init_AUDIO,
    Call.Mix_OpenAudio 0 0 0 0,
    Call.Mix_LoadWAV "sound.ogg",
    Call.Mix_LoadWAV "sound2.wav",
    Call.Mix_PlayChannel (-1) lib.loadSound 1,
    Call.emscripten_run_script "setTimeout(Module['_play2'], 500)",
    Call.emscripten_run_script replayButtonScript,
    Call.printf "you should hear two sounds. press the button to replay!\n",
    Call.REPORT_RESULT 1 ]


end SdlAudio

namespace EmMath

/-! ## Enclosures of the real constants -/

/-- The partial sum of the series of `-log (1 - 1/2)` with 60 terms encloses `log 2`. -/
theorem log_two_enclosure :
    (0.69314718055994530 : ℝ) < Real.log 2 ∧ Real.log 2 < (0.69314718055994532 : ℝ) := by
  have t : |(2⁻¹ : ℝ)| = 2⁻¹ := by rw [abs_of_pos]; norm_num
  have z := Real.abs_log_sub_add_sum_range_le (show |(2⁻¹ : ℝ)| < 1 by rw [t]; norm_num) 60
  rw [t] at z
  norm_num1 at z
  rw [one_div (2 : ℝ), Real.log_inv] at z
  obtain ⟨z1, z2⟩ := abs_le.1 z
  constructor
  · norm_num at z2 ⊢; linarith
  · norm_num at z1 ⊢; linarith

/-- The partial sum of the series of `-log (1 - 1/5)` with 26 terms encloses `log (5/4)`. -/
theorem log_five_quarters_enclosure :
    (0.2231435513142097 : ℝ) < Real.log (5 / 4) ∧ Real.log (5 / 4) < (0.2231435513142098 : ℝ) := by
  have t : |(5⁻¹ : ℝ)| = 5⁻¹ := by rw [abs_of_pos]; norm_num
  have z := Real.abs_log_sub_add_sum_range_le (show |(5⁻¹ : ℝ)| < 1 by rw [t]; norm_num) 26
  rw [t] at z
  norm_num1 at z
  have e : (4 / 5 : ℝ) = (5 / 4)⁻¹ := by norm_num
  rw [e, Real.log_inv] at z
  obtain ⟨z1, z2⟩ := abs_le.1 z
  constructor
  · norm_num at z2 ⊢; linarith
  · norm_num at z1 ⊢; linarith

/-- An enclosure of `log 10 = 3 log 2 + log (5/4)`. -/
theorem log_ten_enclosure :
    (2.3025850929940456 : ℝ) < Real.log 10 ∧ Real.log 10 < (2.30258509299404576 : ℝ) := by
  have h10 : Real.log 10 = 3 * Real.log 2 + Real.log (5 / 4) := by
    have e : (10 : ℝ) = 2 ^ 3 * (5 / 4) := by norm_num
    rw [e, Real.log_mul (by norm_num) (by norm_num), Real.log_pow]
    norm_num
  obtain ⟨a1, a2⟩ := log_two_enclosure
  obtain ⟨b1, b2⟩ := log_five_quarters_enclosure
  rw [h10]
  constructor
  · norm_num at a1 b1 ⊢; linarith
  · norm_num at a2 b2 ⊢; linarith

/-- An enclosure of the square root of two. -/
theorem sqrt_two_enclosure :
    (1.41421356237309504 : ℝ) < Real.sqrt 2 ∧ Real.sqrt 2 < (1.41421356237309505 : ℝ) := by
  constructor
  · apply Real.lt_sqrt_of_sq_lt; norm_num
  · rw [Real.sqrt_lt' (by norm_num)]; norm_num

/-- A rational within `10^-15` of a real `x` enclosed in `(lo, hi)`. -/
theorem abs_sub_lt_of_enclosure {c lo hi x : ℝ} (h1 : lo < x) (h2 : x < hi)
    (hlo : c - 1 / 10 ^ 15 ≤ lo) (hhi : hi ≤ c + 1 / 10 ^ 15) : |c - x| < 1 / 10 ^ 15 := by
  rw [abs_lt]; constructor <;> linarith

/-- A rational within `10^-15` of the inverse of a positive real `x` enclosed in `(lo, hi)`. -/
theorem abs_sub_inv_lt_of_enclosure {c lo hi x : ℝ} (h0 : 0 < lo) (h1 : lo < x) (h2 : x < hi)
    (hc : 0 ≤ c - 1 / 10 ^ 15)
    (hlo : (c - 1 / 10 ^ 15) * hi ≤ 1) (hhi : 1 ≤ (c + 1 / 10 ^ 15) * lo) :
    |c - 1 / x| < 1 / 10 ^ 15 := by
  have hx : 0 < x := lt_trans h0 h1
  have hc2 : 0 < c + 1 / 10 ^ 15 := by
    have : (0 : ℝ) < 1 / 10 ^ 15 := by positivity
    linarith
  have k1 : c - 1 / 10 ^ 15 < 1 / x := by
    rw [lt_div_iff₀ hx]
    rcases hc.eq_or_lt with h | h
    · rw [← h]; norm_num
    · calc (c - 1 / 10 ^ 15) * x < (c - 1 / 10 ^ 15) * hi := by
            exact mul_lt_mul_of_pos_left h2 h
        _ ≤ 1 := hlo
  have k2 : 1 / x < c + 1 / 10 ^ 15 := by
    rw [div_lt_iff₀ hx]
    calc (1 : ℝ) ≤ (c + 1 / 10 ^ 15) * lo := hhi
      _ < (c + 1 / 10 ^ 15) * x := mul_lt_mul_of_pos_left h1 hc2
  rw [abs_lt]; constructor <;> linarith

/-! ## The host operations -/

/-- The fractional part left by rounding toward zero has the sign of the number
and magnitude below one. -/
theorem truncate_frac (q : ℚ) :
    (0 ≤ q → 0 ≤ q - truncate q) ∧ (q ≤ 0 → q - truncate q ≤ 0) ∧ |q - truncate q| < 1 := by
  unfold truncate
  by_cases h : 0 ≤ q
  · rw [if_pos h]
    have h1 := Int.floor_le q
    have h2 := Int.lt_floor_add_one q
    refine ⟨fun _ => by linarith, fun h0 => ?_, ?_⟩
    · have : q = 0 := le_antisymm h0 h
      subst this
      simp
    · rw [abs_lt]; constructor <;> linarith
  · rw [if_neg h]
    have h1 := Int.le_ceil q
    have h2 := Int.ceil_lt_add_one q
    refine ⟨fun h0 => absurd h0 h, fun _ => by linarith, ?_⟩
    rw [abs_lt]; constructor <;> linarith

/-- The truncating remainder `a - b * truncate (a / b)` is smaller in magnitude
than the divisor and never has the sign opposite to the dividend. -/
theorem truncating_remainder_sign (a b : ℚ) (hb : b ≠ 0) :
    |a - b * truncate (a / b)| < |b| ∧ (0 ≤ a → 0 ≤ a - b * truncate (a / b)) ∧
    (a ≤ 0 → a - b * truncate (a / b) ≤ 0) := by
  obtain ⟨f1, f2, f3⟩ := truncate_frac (a / b)
  have e : a - b * truncate (a / b) = b * (a / b - truncate (a / b)) := by
    field_simp
  rw [e]
  refine ⟨?_, ?_, ?_⟩
  · rw [abs_mul]
    calc |b| * |a / b - truncate (a / b)| < |b| * 1 :=
          mul_lt_mul_of_pos_left f3 (abs_pos.2 hb)
      _ = |b| := mul_one _
  · intro ha
    rcases lt_or_gt_of_ne hb with h | h
    · exact mul_nonneg_of_nonpos_of_nonpos h.le (f2 (div_nonpos_of_nonneg_of_nonpos ha h.le))
    · exact mul_nonneg h.le (f1 (div_nonneg ha h.le))
  · intro ha
    rcases lt_or_gt_of_ne hb with h | h
    · exact mul_nonpos_of_nonpos_of_nonneg h.le (f1 (div_nonneg_of_nonpos ha h.le))
    · exact mul_nonpos_of_nonneg_of_nonpos h.le (f2 (div_nonpos_of_nonpos_of_nonneg ha h.le))

/-- Rounding toward zero of a nonnegative rational between `k` and `k + 1`. -/
theorem truncate_eq_of_nonneg {q : ℚ} {k : ℤ} (h1 : (k : ℚ) ≤ q) (h2 : q < k + 1) (h0 : 0 ≤ q) :
    truncate q = k := by
  unfold truncate
  rw [if_pos h0]
  exact Int.floor_eq_iff.2 ⟨h1, h2⟩

/-- Rounding toward zero of a negative rational between `k - 1` and `k`. -/
theorem truncate_eq_of_neg {q : ℚ} {k : ℤ} (h1 : (k : ℚ) - 1 < q) (h2 : q ≤ k) (h0 : q < 0) :
    truncate q = k := by
  unfold truncate
  rw [if_neg (not_le.2 h0)]
  exact Int.ceil_eq_iff.2 ⟨h1, h2⟩

/-! ## The declaration surface -/

/-- C1: among the declarations of `em_math.h`, `emscripten_math_random` is
declared, and a declared function lacks the `const` attribute exactly when it is
`emscripten_math_random`; every other declared function carries it. -/
theorem random_is_the_only_non_const :
    (∃ d ∈ declarations, d.name = "emscripten_math_random" ∧ d.isConst = false) ∧
    (∀ d ∈ declarations, d.isConst = false ↔ d.name = "emscripten_math_random") ∧
    (∀ d ∈ declarations, d.name ≠ "emscripten_math_random" → d.isConst = true) ∧
    namesWhere (fun d => !d.isConst) = ["emscripten_math_random"] ∧
    declarations.length = 27 := by
  refine ⟨?_, ?_, ?_, ?_, ?_⟩ <;> decide

/-- C2: the shape of the declared surface of `em_math.h`. Every function
returns `double`; the only function without arguments is
`emscripten_math_random`; the functions of two `double` arguments are exactly
`atan2`, `fmod` and `pow`; the only variadic function is `emscripten_math_hypot`,
whose one named parameter is an `int`; every remaining function takes exactly
one `double`; hence every non-variadic function takes at most two arguments,
all of them `double`. -/
theorem declared_surface_shape :
    (∀ d ∈ declarations, d.ret = CType.double) ∧
    namesWhere (fun d => !d.variadic && decide (d.params = [])) =
      ["emscripten_math_random"] ∧
    namesWhere (fun d => !d.variadic && decide (d.params = [CType.double, CType.double])) =
      ["emscripten_math_atan2", "emscripten_math_fmod", "emscripten_math_pow"] ∧
    namesWhere (fun d => d.variadic) = ["emscripten_math_hypot"] ∧
    (∀ d ∈ declarations, d.variadic = true → d.params = [CType.int]) ∧
    (∀ d ∈ declarations,
      d.name ∉ ["emscripten_math_random", "emscripten_math_atan2", "emscripten_math_fmod",
        "emscripten_math_pow", "emscripten_math_hypot"] →
      d.variadic = false ∧ d.params = [CType.double]) ∧
    (∀ d ∈ declarations, d.variadic = false →
      d.params.length ≤ 2 ∧ ∀ t ∈ d.params, t = CType.double) ∧
    (declarations.map Decl.name).Nodup := by
  refine ⟨?_, ?_, ?_, ?_, ?_, ?_, ?_, ?_⟩ <;> decide

/-! ## The constants -/

/-- C3: `EM_MATH_PI`, read as the exact decimal `3.141592653589793`, is within
`10^-15` of the real number pi. -/
theorem EM_MATH_PI_near_pi :
    EM_MATH_PI = 3141592653589793 / 10 ^ 15 ∧
    |((EM_MATH_PI : ℚ) : ℝ) - Real.pi| < 1 / 10 ^ 15 := by
  have hc : ((EM_MATH_PI : ℚ) : ℝ) = 3141592653589793 / 10 ^ 15 := by
    simp only [EM_MATH_PI]; push_cast; rfl
  refine ⟨rfl, ?_⟩
  rw [hc]
  exact abs_sub_lt_of_enclosure Real.pi_gt_d20 Real.pi_lt_d20 (by norm_num) (by norm_num)

/-- C4: `EM_MATH_SQRT2` and `EM_MATH_SQRT1_2`, read as exact decimals, are
positive and within `10^-15` of the square root of two and of its inverse;
their squares are within `10^-14` of `2` and of `1/2`, and their product is
within `10^-15` of `1`. -/
theorem EM_MATH_SQRT_constants_near :
    0 < EM_MATH_SQRT2 ∧ |((EM_MATH_SQRT2 : ℚ) : ℝ) - Real.sqrt 2| < 1 / 10 ^ 15 ∧
    0 < EM_MATH_SQRT1_2 ∧ |((EM_MATH_SQRT1_2 : ℚ) : ℝ) - 1 / Real.sqrt 2| < 1 / 10 ^ 15 ∧
    |EM_MATH_SQRT2 ^ 2 - 2| < 1 / 10 ^ 14 ∧ |EM_MATH_SQRT1_2 ^ 2 - 1 / 2| < 1 / 10 ^ 14 ∧
    |EM_MATH_SQRT2 * EM_MATH_SQRT1_2 - 1| < 1 / 10 ^ 15 := by
  have hc : ((EM_MATH_SQRT2 : ℚ) : ℝ) = 14142135623730951 / 10 ^ 16 := by
    simp only [EM_MATH_SQRT2]; push_cast; rfl
  have hd : ((EM_MATH_SQRT1_2 : ℚ) : ℝ) = 7071067811865476 / 10 ^ 16 := by
    simp only [EM_MATH_SQRT1_2]; push_cast; rfl
  obtain ⟨s1, s2⟩ := sqrt_two_enclosure
  refine ⟨by norm_num [EM_MATH_SQRT2], ?_, by norm_num [EM_MATH_SQRT1_2], ?_, ?_, ?_, ?_⟩
  · rw [hc]; exact abs_sub_lt_of_enclosure s1 s2 (by norm_num) (by norm_num)
  · rw [hd]
    exact abs_sub_inv_lt_of_enclosure (by norm_num) s1 s2 (by norm_num) (by norm_num)
      (by norm_num)
  · rw [abs_lt]; constructor <;> norm_num [EM_MATH_SQRT2]
  · rw [abs_lt]; constructor <;> norm_num [EM_MATH_SQRT1_2]
  · rw [abs_lt]; constructor <;> norm_num [EM_MATH_SQRT2, EM_MATH_SQRT1_2]

/-- C5: the exponential and logarithm constants, read as exact decimals, are
within `10^-15` of the values they name: `EM_MATH_E` of `exp 1`, `EM_MATH_LN2`
of `log 2`, `EM_MATH_LN10` of `log 10`, `EM_MATH_LOG2E` of `1 / log 2` and
`EM_MATH_LOG10E` of `1 / log 10`. -/
theorem EM_MATH_exp_log_constants_near :
    |((EM_MATH_E : ℚ) : ℝ) - Real.exp 1| < 1 / 10 ^ 15 ∧
    |((EM_MATH_LN2 : ℚ) : ℝ) - Real.log 2| < 1 / 10 ^ 15 ∧
    |((EM_MATH_LN10 : ℚ) : ℝ) - Real.log 10| < 1 / 10 ^ 15 ∧
    |((EM_MATH_LOG2E : ℚ) : ℝ) - 1 / Real.log 2| < 1 / 10 ^ 15 ∧
    |((EM_MATH_LOG10E : ℚ) : ℝ) - 1 / Real.log 10| < 1 / 10 ^ 15 := by
  have c1 : ((EM_MATH_E : ℚ) : ℝ) = 2718281828459045 / 10 ^ 15 := by
    simp only [EM_MATH_E]; push_cast; rfl
  have c2 : ((EM_MATH_LN2 : ℚ) : ℝ) = 6931471805599453 / 10 ^ 16 := by
    simp only [EM_MATH_LN2]; push_cast; rfl
  have c3 : ((EM_MATH_LN10 : ℚ) : ℝ) = 2302585092994046 / 10 ^ 15 := by
    simp only [EM_MATH_LN10]; push_cast; rfl
  have c4 : ((EM_MATH_LOG2E : ℚ) : ℝ) = 14426950408889634 / 10 ^ 16 := by
    simp only [EM_MATH_LOG2E]; push_cast; rfl
  have c5 : ((EM_MATH_LOG10E : ℚ) : ℝ) = 4342944819032518 / 10 ^ 16 := by
    simp only [EM_MATH_LOG10E]; push_cast; rfl
  obtain ⟨e1, e2⟩ := abs_sub_le_iff.1 Real.exp_one_near_20
  obtain ⟨a1, a2⟩ := log_two_enclosure
  obtain ⟨b1, b2⟩ := log_ten_enclosure
  refine ⟨?_, ?_, ?_, ?_, ?_⟩
  · rw [c1, abs_lt]
    constructor
    · norm_num at e1 e2 ⊢; linarith
    · norm_num at e1 e2 ⊢; linarith
  · rw [c2]; exact abs_sub_lt_of_enclosure a1 a2 (by norm_num) (by norm_num)
  · rw [c3]; exact abs_sub_lt_of_enclosure b1 b2 (by norm_num) (by norm_num)
  · rw [c4]
    exact abs_sub_inv_lt_of_enclosure (by norm_num) a1 a2 (by norm_num) (by norm_num)
      (by norm_num)
  · rw [c5]
    exact abs_sub_inv_lt_of_enclosure (by norm_num) b1 b2 (by norm_num) (by norm_num)
      (by norm_num)

/-! ## The forwarded operations -/

/-- The decimal literals `5.3` and `1.3` denote the doubles `double_5_3` and
`double_1_3`: each is a binary64 value within half a unit in the last place of
the decimal. The other literals used below (`-5`, `0`, `2`, `3`, `4`, `5`) are
binary64 values themselves. -/
theorem literals_are_doubles :
    IsBinary64 double_5_3 ∧ |double_5_3 - 53 / 10| < 1 / 2 ^ 51 ∧
    IsBinary64 double_1_3 ∧ |double_1_3 - 13 / 10| < 1 / 2 ^ 53 ∧
    IsBinary64 (-5) ∧ IsBinary64 0 ∧ IsBinary64 2 ∧ IsBinary64 3 ∧ IsBinary64 4 ∧
    IsBinary64 5 := by
  refine ⟨⟨5967269506265907, -50, ?_⟩, ?_, ⟨5854679515581645, -52, ?_⟩, ?_, ⟨-5, 0, ?_⟩,
    ⟨0, 0, ?_⟩, ⟨2, 0, ?_⟩, ⟨3, 0, ?_⟩, ⟨4, 0, ?_⟩, ⟨5, 0, ?_⟩⟩ <;>
    (rw [abs_lt]; constructor <;> norm_num [double_5_3, double_1_3])

/-- C6: `emscripten_math_sign` returns the sign of its argument as a double:
`-1.0` at `-5.0`, `0.0` at `0.0`, `1.0` at `5.0`, and at every finite argument
the sign of that argument. -/
theorem emscripten_math_sign_returns_sign :
    emscripten_math_sign (Double.num (-5)) = Double.num (-1) ∧
    emscripten_math_sign (Double.num 0) = Double.num 0 ∧
    emscripten_math_sign (Double.num 5) = Double.num 1 ∧
    (∀ q : ℚ, emscripten_math_sign (Double.num q) = Double.num ((SignType.sign q : ℤ) : ℚ)) := by
  refine ⟨by decide, by decide, by decide, ?_⟩
  intro q
  unfold emscripten_math_sign hostSign
  rcases lt_trichotomy q 0 with h | h | h
  · simp [h, sign_neg h]
  · subst h; simp
  · simp [h, not_lt.2 h.le, sign_pos h]

/-- C7: for every `x` and `y`, `emscripten_math_fmod x y` is the host remainder
`x % y`. On finite nonzero operands the result `r = a - b * truncate (a / b)` is
smaller in magnitude than the divisor and takes the sign of the dividend (a
zero result of a negative dividend being `-0`). At `(5.3, 2.0)` the result is
the double `5.3 - 4`, less than one unit in the last place from `1.3`; at
`(-5.3, 2.0)` it is the negative `-(5.3 - 4)`, where the remainder with the
sign of the divisor is the positive `2 - (5.3 - 4)`. -/
theorem emscripten_math_fmod_is_host_remainder :
    (∀ x y : Double, emscripten_math_fmod x y = hostRemainder x y) ∧
    (∀ a b : ℚ, a ≠ 0 → b ≠ 0 →
      |a - b * truncate (a / b)| < |b| ∧
      (0 < a → 0 ≤ a - b * truncate (a / b)) ∧ (a < 0 → a - b * truncate (a / b) ≤ 0) ∧
      emscripten_math_fmod (Double.num a) (Double.num b) =
        (if a - b * truncate (a / b) = 0 ∧ a < 0 then Double.negZero
         else Double.num (a - b * truncate (a / b)))) ∧
    emscripten_math_fmod (Double.num double_5_3) (Double.num 2) = Double.num (double_5_3 - 4) ∧
    |double_5_3 - 4 - 13 / 10| < 1 / 2 ^ 52 ∧
    emscripten_math_fmod (Double.num (-double_5_3)) (Double.num 2) =
      Double.num (-(double_5_3 - 4)) ∧
    -(double_5_3 - 4) < 0 ∧
    flooredRemainder (-double_5_3) 2 = 2 - (double_5_3 - 4) ∧
    0 < 2 - (double_5_3 - 4) := by
  have t1 : truncate (double_5_3 / 2) = 2 := by
    apply truncate_eq_of_nonneg <;> norm_num [double_5_3]
  have t2 : truncate (-double_5_3 / 2) = -2 := by
    apply truncate_eq_of_neg <;> norm_num [double_5_3]
  have t3 : ⌊-double_5_3 / 2⌋ = -3 := by
    rw [Int.floor_eq_iff]; constructor <;> norm_num [double_5_3]
  refine ⟨fun _ _ => rfl, ?_, ?_, ?_, ?_, ?_, ?_, ?_⟩
  · intro a b ha hb
    obtain ⟨r1, r2, r3⟩ := truncating_remainder_sign a b hb
    refine ⟨r1, fun h => r2 h.le, fun h => r3 h.le, ?_⟩
    unfold emscripten_math_fmod hostRemainder
    simp [ha, hb]
  · unfold emscripten_math_fmod hostRemainder
    simp only [t1]
    norm_num [double_5_3]
  · rw [abs_lt]; constructor <;> norm_num [double_5_3]
  · unfold emscripten_math_fmod hostRemainder
    simp only [t2]
    norm_num [double_5_3]
  · norm_num [double_5_3]
  · unfold flooredRemainder
    rw [t3]
    norm_num [double_5_3]
  · norm_num [double_5_3]

/-- The significand chosen by `roundHalfEvenSqrt` is within one half of the
square root: `t` lies between the squares of the two midpoints around it. -/
theorem roundHalfEvenSqrt_nearest (t : ℚ) (ht : 0 ≤ t) :
    t ≤ ((roundHalfEvenSqrt t : ℚ) + 1 / 2) ^ 2 ∧
    (1 ≤ roundHalfEvenSqrt t → ((roundHalfEvenSqrt t : ℚ) - 1 / 2) ^ 2 ≤ t) := by
  have hlo : ((Nat.sqrt ⌊t⌋₊ : ℚ)) ^ 2 ≤ t := by
    have h1 : Nat.sqrt ⌊t⌋₊ * Nat.sqrt ⌊t⌋₊ ≤ ⌊t⌋₊ := Nat.sqrt_le _
    have h2 : ((⌊t⌋₊ : ℕ) : ℚ) ≤ t := Nat.floor_le ht
    have h3 : ((Nat.sqrt ⌊t⌋₊ * Nat.sqrt ⌊t⌋₊ : ℕ) : ℚ) ≤ (⌊t⌋₊ : ℚ) := by exact_mod_cast h1
    push_cast at h3
    nlinarith
  have hhi : t < ((Nat.sqrt ⌊t⌋₊ : ℚ) + 1) ^ 2 := by
    have h1 : ⌊t⌋₊ < (Nat.sqrt ⌊t⌋₊ + 1) * (Nat.sqrt ⌊t⌋₊ + 1) := Nat.lt_succ_sqrt _
    have h2 : t < (⌊t⌋₊ : ℚ) + 1 := Nat.lt_floor_add_one t
    have h3 : ((⌊t⌋₊ : ℕ) : ℚ) + 1 ≤ (((Nat.sqrt ⌊t⌋₊ + 1) * (Nat.sqrt ⌊t⌋₊ + 1) : ℕ) : ℚ) := by
      exact_mod_cast h1
    push_cast at h3
    nlinarith
  have hm : (0 : ℚ) ≤ (Nat.sqrt ⌊t⌋₊ : ℚ) := Nat.cast_nonneg _
  unfold roundHalfEvenSqrt
  simp only []
  split_ifs with c1 c2 c3
  · refine ⟨c1.le, fun h => ?_⟩
    have h1 : (1 : ℚ) ≤ (Nat.sqrt ⌊t⌋₊ : ℚ) := by exact_mod_cast h
    nlinarith
  · refine ⟨?_, fun _ => ?_⟩
    · push_cast; nlinarith
    · push_cast
      have : ((Nat.sqrt ⌊t⌋₊ : ℚ) + 1 - 1 / 2) = (Nat.sqrt ⌊t⌋₊ : ℚ) + 1 / 2 := by ring
      rw [this]; exact c2.le
  · refine ⟨not_lt.1 c2, fun h => ?_⟩
    have h1 : (1 : ℚ) ≤ (Nat.sqrt ⌊t⌋₊ : ℚ) := by exact_mod_cast h
    nlinarith
  · refine ⟨?_, fun _ => ?_⟩
    · push_cast; nlinarith
    · push_cast
      have : ((Nat.sqrt ⌊t⌋₊ : ℚ) + 1 - 1 / 2) = (Nat.sqrt ⌊t⌋₊ : ℚ) + 1 / 2 := by ring
      rw [this]; exact not_lt.1 c1

/-- The integer part of the square root of a natural number between two
consecutive squares. -/
theorem nat_sqrt_eq_of_bounds {n m : ℕ} (h1 : m * m ≤ n) (h2 : n < (m + 1) * (m + 1)) :
    Nat.sqrt n = m :=
  (Nat.eq_sqrt.2 ⟨h1, h2⟩).symm

/-- The double-precision square root is `+∞` or a significand times a power of
two within half a unit in the last place of the square root: `s` lies between
the squares of the two midpoints around the result. -/
theorem sqrtToDouble_nearest (s : ℚ) (hs : 0 < s) :
    sqrtToDouble s = Double.posInf ∨
    ∃ (m : ℕ) (e : ℤ), -1074 ≤ e ∧ sqrtToDouble s = Double.num (m * (2 : ℚ) ^ e) ∧
      s ≤ (((m : ℚ) + 1 / 2) * (2 : ℚ) ^ e) ^ 2 ∧
      (1 ≤ m → (((m : ℚ) - 1 / 2) * (2 : ℚ) ^ e) ^ 2 ≤ s) := by
  obtain ⟨e, he⟩ : ∃ e : ℤ, e = max (Int.log 2 s / 2 - 52) (-1074) := ⟨_, rfl⟩
  have hp : (0 : ℚ) < ((2 : ℚ) ^ e) ^ 2 := by positivity
  have h4 : (4 : ℚ) ^ e = ((2 : ℚ) ^ e) ^ 2 := by
    have : (4 : ℚ) = 2 ^ (2 : ℕ) := by norm_num
    rw [this, ← zpow_natCast, ← zpow_natCast, ← zpow_mul, ← zpow_mul, mul_comm]
  have ht : 0 ≤ s / (4 : ℚ) ^ e := by rw [h4]; positivity
  have hst : s = s / (4 : ℚ) ^ e * ((2 : ℚ) ^ e) ^ 2 := by
    rw [h4]; field_simp
  obtain ⟨r1, r2⟩ := roundHalfEvenSqrt_nearest (s / (4 : ℚ) ^ e) ht
  unfold sqrtToDouble
  rw [if_neg (not_le.2 hs)]
  simp only [← he]
  split_ifs with c
  · exact Or.inl rfl
  · refine Or.inr ⟨roundHalfEvenSqrt (s / (4 : ℚ) ^ e), e, ?_, rfl, ?_, fun h => ?_⟩
    · rw [he]; exact le_max_right _ _
    · rw [mul_pow]
      calc s = s / (4 : ℚ) ^ e * ((2 : ℚ) ^ e) ^ 2 := hst
        _ ≤ _ := mul_le_mul_of_nonneg_right r1 hp.le
    · rw [mul_pow]
      calc _ ≤ s / (4 : ℚ) ^ e * ((2 : ℚ) ^ e) ^ 2 := mul_le_mul_of_nonneg_right (r2 h) hp.le
        _ = s := hst.symm

/-- The double-precision square root of `25` is `5`. -/
theorem sqrtToDouble_25 : sqrtToDouble 25 = Double.num 5 := by
  have hlog : Int.log 2 (25 : ℚ) = 4 := by
    have : ((25 : ℕ) : ℚ) = 25 := by norm_num
    rw [← this, Int.log_natCast]
    have : Nat.log 2 25 = 4 := Nat.log_eq_of_pow_le_of_lt_pow (by norm_num) (by norm_num)
    rw [this]; rfl
  have hfl : ⌊(25 : ℚ) / (4 : ℚ) ^ (-50 : ℤ)⌋₊ = 25 * 2 ^ 100 := by
    have : (25 : ℚ) / (4 : ℚ) ^ (-50 : ℤ) = ((25 * 2 ^ 100 : ℕ) : ℚ) := by norm_num
    rw [this, Nat.floor_natCast]
  have hsq : Nat.sqrt (25 * 2 ^ 100) = 5 * 2 ^ 50 :=
    nat_sqrt_eq_of_bounds (by norm_num) (by norm_num)
  have hr : roundHalfEvenSqrt ((25 : ℚ) / (4 : ℚ) ^ (-50 : ℤ)) = 5 * 2 ^ 50 := by
    unfold roundHalfEvenSqrt
    simp only [hfl, hsq]
    rw [if_pos (by norm_num)]
  unfold sqrtToDouble
  rw [if_neg (by norm_num)]
  simp only [hlog]
  have he : max ((4 : ℤ) / 2 - 52) (-1074) = -50 := by decide
  rw [he, hr]
  rw [if_neg (by norm_num)]
  norm_num

/-- The double-precision square root of `2` is the double `6369051672525773 / 2^52`. -/
theorem sqrtToDouble_2 : sqrtToDouble 2 = Double.num (6369051672525773 / 2 ^ 52) := by
  have hlog : Int.log 2 (2 : ℚ) = 1 := by
    have : ((2 : ℕ) : ℚ) = 2 := by norm_num
    rw [← this, Int.log_natCast]
    have : Nat.log 2 2 = 1 := Nat.log_eq_of_pow_le_of_lt_pow (by norm_num) (by norm_num)
    rw [this]; rfl
  have hfl : ⌊(2 : ℚ) / (4 : ℚ) ^ (-52 : ℤ)⌋₊ = 2 ^ 105 := by
    have : (2 : ℚ) / (4 : ℚ) ^ (-52 : ℤ) = ((2 ^ 105 : ℕ) : ℚ) := by norm_num
    rw [this, Nat.floor_natCast]
  have hsq : Nat.sqrt (2 ^ 105) = 6369051672525772 :=
    nat_sqrt_eq_of_bounds (by norm_num) (by norm_num)
  have hr : roundHalfEvenSqrt ((2 : ℚ) / (4 : ℚ) ^ (-52 : ℤ)) = 6369051672525773 := by
    unfold roundHalfEvenSqrt
    simp only [hfl, hsq]
    rw [if_neg (by norm_num), if_pos (by norm_num)]
  unfold sqrtToDouble
  rw [if_neg (by norm_num)]
  simp only [hlog]
  have he : max ((1 : ℤ) / 2 - 52) (-1074) = -52 := by decide
  rw [he, hr]
  rw [if_neg (by norm_num)]
  norm_num

/-- Where the root is irrational the result is still a double: with the count
`2` and the arguments `1.0` and `1.0`, `emscripten_math_hypot` returns the
binary64 value `6369051672525773 / 2^52`, less than half a unit in the last
place from the square root of two. -/
theorem emscripten_math_hypot_1_1 :
    emscripten_math_hypot 2 [Double.num 1, Double.num 1] =
      Double.num (6369051672525773 / 2 ^ 52) ∧
    IsBinary64 (6369051672525773 / 2 ^ 52) ∧
    |((6369051672525773 / 2 ^ 52 : ℚ) : ℝ) - Real.sqrt 2| < 1 / 2 ^ 53 := by
  refine ⟨?_, ⟨6369051672525773, -52, by norm_num, by norm_num, by norm_num, by norm_num⟩, ?_⟩
  · unfold emscripten_math_hypot hostHypot
    have hs : ((List.take 2 [Double.num 1, Double.num 1]).map Double.square).sum = 2 := by
      simp [Double.square]; norm_num
    rw [hs, sqrtToDouble_2]
    simp
  · have hlo : (6369051672525773 / 2 ^ 52 - 1 / 2 ^ 53 : ℝ) < Real.sqrt 2 := by
      apply Real.lt_sqrt_of_sq_lt; norm_num
    have hhi : Real.sqrt 2 < (6369051672525773 / 2 ^ 52 + 1 / 2 ^ 53 : ℝ) := by
      rw [Real.sqrt_lt' (by norm_num)]; norm_num
    push_cast
    rw [abs_lt]
    constructor <;> linarith

/-- On finite arguments the host hypotenuse is the double-precision square root
of the sum of their squares. -/
theorem hostHypot_finite (qs : List ℚ) :
    hostHypot (qs.map Double.num) = sqrtToDouble ((qs.map (fun q => q ^ 2)).sum) := by
  unfold hostHypot
  have h1 : (qs.map Double.num).any
      (fun x => decide (x = Double.posInf ∨ x = Double.negInf)) = false := by
    simp
  have h2 : (qs.map Double.num).any (fun x => decide (x = Double.nan)) = false := by
    simp
  rw [h1, h2]
  simp [Double.square, List.map_map, Function.comp_def]

/-- C8: `emscripten_math_hypot`, called with the explicit count `2` followed by
the two double arguments `3.0` and `4.0`, returns the double `5.0` exactly; any
further variadic argument beyond the count is not read. In general, on finite
arguments whose squares have a positive sum `s`, the result is `+∞` or a double
`m * 2^e` within half a unit in the last place of the square root of `s`. -/
theorem emscripten_math_hypot_3_4 :
    emscripten_math_hypot 2 [Double.num 3, Double.num 4] = Double.num 5 ∧
    (∀ rest : List Double,
      emscripten_math_hypot 2 (Double.num 3 :: Double.num 4 :: rest) = Double.num 5) ∧
    (∀ (count : ℕ) (qs : List ℚ), 0 < ((qs.take count).map (fun q => q ^ 2)).sum →
      emscripten_math_hypot count (qs.map Double.num) = Double.posInf ∨
      ∃ (m : ℕ) (e : ℤ), -1074 ≤ e ∧
        emscripten_math_hypot count (qs.map Double.num) = Double.num (m * (2 : ℚ) ^ e) ∧
        ((qs.take count).map (fun q => q ^ 2)).sum ≤ (((m : ℚ) + 1 / 2) * (2 : ℚ) ^ e) ^ 2 ∧
        (1 ≤ m →
          (((m : ℚ) - 1 / 2) * (2 : ℚ) ^ e) ^ 2 ≤ ((qs.take count).map (fun q => q ^ 2)).sum)) := by
  have key : ∀ rest : List Double,
      emscripten_math_hypot 2 (Double.num 3 :: Double.num 4 :: rest) = Double.num 5 := by
    intro rest
    unfold emscripten_math_hypot hostHypot
    have hs : ((List.take 2 (Double.num 3 :: Double.num 4 :: rest)).map Double.square).sum
        = 25 := by
      simp [Double.square]; norm_num
    rw [hs, sqrtToDouble_25]
    simp
  refine ⟨key [], key, ?_⟩
  intro count qs hpos
  have e : emscripten_math_hypot count (qs.map Double.num) =
      sqrtToDouble (((qs.take count).map (fun q => q ^ 2)).sum) := by
    unfold emscripten_math_hypot
    rw [← List.map_take, hostHypot_finite]
  rw [e]
  exact sqrtToDouble_nearest _ hpos

end EmMath

namespace SdlAudio

/-- What the assertions of lines 27, 30 and 32 establish when `play` is reached. -/
theorem mainUntilPlay_ok (lib : LibResults) (s : State)
    (h : mainUntilPlay lib State.init = Except.ok s) :
    lib.openAudio = 0 ∧ lib.loadSound ≠ 0 ∧
    s = { sound := lib.loadSound, sound2 := lib.loadSound2,
          calls := [Call.SDL_Init_AUDIO, Call.Mix_OpenAudio 0 0 0 0,
                    Call.Mix_LoadWAV "sound.ogg", Call.Mix_LoadWAV "sound2.wav"],
          entered := [Fn.main] } := by
  unfold mainUntilPlay at h
  simp only [assert, State.call, State.enter, State.init, bind, Except.bind, pure, Except.pure,
    List.nil_append, List.cons_append] at h
  by_cases h0 : lib.openAudio = 0
  · by_cases h1 : lib.loadSound = 0
    · simp [h0, h1] at h
    · simp [h0, h1] at h
      exact ⟨h0, h1, h.symm⟩
  · simp [h0] at h

/-- C9: the assertion after loading `sound2` (line 32) tests `sound` again, so
`main` reaches `play` with `sound2` null when only `Mix_LoadWAV("sound2.wav")`
fails: no assertion fails, `main` returns `0` and reports the result `1`. The
property that reaching `play` implies both chunks are non-null does not hold. -/
theorem main_reaches_play_with_null_sound2 :
    (∃ s, mainUntilPlay sound2Missing State.init = Except.ok s ∧ s.sound ≠ 0 ∧ s.sound2 = 0) ∧
    (∃ s, main sound2Missing 1 [] = Except.ok (0, s) ∧ s.sound2 = 0 ∧
      s.calls = linearCalls sound2Missing) ∧
    ¬ (∀ (lib : LibResults) (s : State), mainUntilPlay lib State.init = Except.ok s →
        lib.openAudio = 0 ∧ s.sound ≠ 0 ∧ s.sound2 ≠ 0) := by
  refine ⟨⟨_, rfl, by decide, rfl⟩, ⟨_, rfl, rfl, rfl⟩, ?_⟩
  intro h
  exact (h sound2Missing _ rfl).2.2 rfl

/-- C10, as stated, fails: with every library call succeeding, the library
calls of `main` for `argc = 1` and for `argc = 12121` differ, and for
`argc = 12121` `main` enters `play2` itself. -/
theorem main_calls_depend_on_argc :
    callsOf (main allSucceed 1 []) ≠ callsOf (main allSucceed 12121 []) ∧
    Fn.play2 ∈ enteredOf (main allSucceed 12121 []) ∧
    ¬ (∀ (lib : LibResults) (argc1 argc2 : Int) (argv1 argv2 : List String),
        callsOf (main lib argc1 argv1) = callsOf (main lib argc2 argv2) ∧
        Fn.play2 ∉ enteredOf (main lib argc1 argv1)) := by
  refine ⟨by decide, by decide, ?_⟩
  intro h
  exact absurd (h allSucceed 1 12121 [] []).1 (by decide)

/-- C10, amended: for every two values of `argc` other than `12121` (and any
`argv`), given the same library results, the runs of `main` are equal, so the
library calls are the same. Such a run makes the calls of `linearCalls` in
order, all nine of them unless an assertion fails (the first two when
`Mix_OpenAudio` fails, three when `sound` is null, five when `play` gets a
negative channel); it enters `play` once `sound` is loaded and never enters
`play2`; it returns `0` with all nine calls made exactly when `Mix_OpenAudio`
returned `0`, `sound` is non-null and `play` got a channel. For `argc = 12121`
`main` enters `play2` itself whenever `play` returns, whatever the assertion
of `play2` then does, and the call of `Mix_PlayChannel` on `sound2` follows
the timer script of `play`. -/
theorem main_calls_same_unless_argc_12121 (lib : LibResults) (argc1 argc2 : Int)
    (argv1 argv2 : List String) (h1 : argc1 ≠ 12121) (h2 : argc2 ≠ 12121) :
    main lib argc1 argv1 = main lib argc2 argv2 ∧
    callsOf (main lib argc1 argv1) =
      (linearCalls lib).take
        (if lib.openAudio ≠ 0 then 2 else if lib.loadSound = 0 then 3
         else if 0 ≤ lib.playChannel then 9 else 5) ∧
    enteredOf (main lib argc1 argv1) =
      (if lib.openAudio = 0 ∧ lib.loadSound ≠ 0 then [Fn.main, Fn.play] else [Fn.main]) ∧
    Fn.play2 ∉ enteredOf (main lib argc1 argv1) ∧
    (main lib argc1 argv1 =
        Except.ok (0, { sound := lib.loadSound, sound2 := lib.loadSound2,
                        calls := linearCalls lib, entered := [Fn.main, Fn.play] }) ↔
      lib.openAudio = 0 ∧ lib.loadSound ≠ 0 ∧ 0 ≤ lib.playChannel) ∧
    (∀ argv : List String, enteredOf (main lib 12121 argv) =
      (if lib.openAudio = 0 ∧ lib.loadSound ≠ 0 then
        (if 0 ≤ lib.playChannel then [Fn.main, Fn.play, Fn.play2] else [Fn.main, Fn.play])
       else [Fn.main])) ∧
    (∀ argv : List String, callsOf (main lib 12121 argv) =
      (if lib.openAudio = 0 ∧ lib.loadSound ≠ 0 ∧ 0 ≤ lib.playChannel then
        (linearCalls lib).take 6 ++ [Call.Mix_PlayChannel (-1) lib.loadSound2 1] ++
          (if 0 ≤ lib.play2Channel then (linearCalls lib).drop 6 else [])
       else callsOf (main lib argc1 argv1))) := by
  refine ⟨?_, ?_, ?_, ?_, ?_, ?_, ?_⟩
  · have e : mainFromPlay lib argc1 = mainFromPlay lib argc2 := by
      funext s
      simp [mainFromPlay, h1, h2]
    simp [main, e]
  · by_cases a : lib.openAudio = 0 <;> by_cases b : lib.loadSound = 0 <;>
      by_cases c : 0 ≤ lib.playChannel <;>
      simp [main, mainUntilPlay, mainFromPlay, play, assert, State.call, State.enter,
        State.init, callsOf, linearCalls, bind, Except.bind, pure, Except.pure, a, b, c, h1]
  · by_cases a : lib.openAudio = 0 <;> by_cases b : lib.loadSound = 0 <;>
      by_cases c : 0 ≤ lib.playChannel <;>
      simp [main, mainUntilPlay, mainFromPlay, play, assert, State.call, State.enter,
        State.init, enteredOf, bind, Except.bind, pure, Except.pure, a, b, c, h1]
  · by_cases a : lib.openAudio = 0 <;> by_cases b : lib.loadSound = 0 <;>
      by_cases c : 0 ≤ lib.playChannel <;>
      simp [main, mainUntilPlay, mainFromPlay, play, assert, State.call, State.enter,
        State.init, enteredOf, bind, Except.bind, pure, Except.pure, a, b, c, h1]
  · by_cases a : lib.openAudio = 0 <;> by_cases b : lib.loadSound = 0 <;>
      by_cases c : 0 ≤ lib.playChannel <;>
      simp [main, mainUntilPlay, mainFromPlay, play, assert, State.call, State.enter,
        State.init, linearCalls, bind, Except.bind, pure, Except.pure, a, b, c, h1]
  · intro argv
    by_cases a : lib.openAudio = 0 <;> by_cases b : lib.loadSound = 0 <;>
      by_cases c : 0 ≤ lib.playChannel <;> by_cases d : 0 ≤ lib.play2Channel <;>
      simp [main, mainUntilPlay, mainFromPlay, play, play2, assert, State.call, State.enter,
        State.init, enteredOf, bind, Except.bind, pure, Except.pure, a, b, c, d]
  · intro argv
    by_cases a : lib.openAudio = 0 <;> by_cases b : lib.loadSound = 0 <;>
      by_cases c : 0 ≤ lib.playChannel <;> by_cases d : 0 ≤ lib.play2Channel <;>
      simp [main, mainUntilPlay, mainFromPlay, play, play2, assert, State.call, State.enter,
        State.init, callsOf, linearCalls, bind, Except.bind, pure, Except.pure, a, b, c, d, h1]

/-- The amended C10 at `argc = 1` and `argc = 2` with every library call
succeeding: both runs return `0` after the nine calls of `linearCalls`. -/
theorem main_calls_same_unless_argc_12121_witness :
    ((1 : Int) ≠ 12121 ∧ (2 : Int) ≠ 12121) ∧
    main allSucceed 1 [] = main allSucceed 2 ["a"] ∧
    main allSucceed 1 [] =
      Except.ok (0, { sound := 1, sound2 := 2, calls := linearCalls allSucceed,
                      entered := [Fn.main, Fn.play] }) ∧
    Fn.play2 ∉ enteredOf (main allSucceed 1 []) ∧
    enteredOf (main allSucceed 12121 []) = [Fn.main, Fn.play, Fn.play2] :=
  have h := main_calls_same_unless_argc_12121 allSucceed 1 2 [] ["a"] (by decide) (by decide)
  ⟨⟨by decide, by decide⟩, h.1, h.2.2.2.2.1.2 (by decide), h.2.2.2.1,
    (h.2.2.2.2.2.1 []).trans (by decide)⟩

end SdlAudio
